import Mathlib

/-!
Verification of the directory-flatten utility (CLI `parse_folder` in
`flatten_file_data.py` and GUI `DirectoryScanner` in `flatten_gui.py`)
against its specification.

The filesystem snapshot seen by one call is modelled as a finite tree of
directories (`Dir`).  A file's readability is part of the snapshot: its
content is `Except.ok text` when reading succeeds and `Except.error msg`
when reading raises (permission error, decode error, ...), which is the
per-file behaviour both traversals convert into an inline error marker.
Paths are lists of segments; rendering a path joins segments with "/"
(POSIX behaviour of `os.path.join` / `pathlib`).
-/

namespace Flatten

/-- Decidable equality for `Except`, needed to evaluate the model on
concrete snapshots. -/
instance {ε α : Type} [DecidableEq ε] [DecidableEq α] : DecidableEq (Except ε α) := fun x y =>
  match x, y with
  | .ok a, .ok b =>
    if h : a = b then isTrue (by rw [h]) else isFalse (fun hh => by cases hh; exact h rfl)
  | .error a, .error b =>
    if h : a = b then isTrue (by rw [h]) else isFalse (fun hh => by cases hh; exact h rfl)
  | .ok _, .error _ => isFalse (fun hh => by cases hh)
  | .error _, .ok _ => isFalse (fun hh => by cases hh)

/-- Python `str.endswith(suffix)`, modelled on the character list of the
string. -/
def strEndsWith (s suffix : String) : Bool :=
  suffix.data.isSuffixOf s.data

/-- Render a path given as a list of segments, POSIX style. -/
def joinPath (segs : List String) : String :=
  String.intercalate "/" segs

/-- `Configuration` from `flatten_gui.py`: the include-extension set and the
skip-folder-name set (sets modelled as lists; only membership is used). -/
structure Configuration where
  include_files : List String
  skip_folders : List String

/-- `INCLUDE_FILES` constant of `flatten_file_data.py`. -/
def INCLUDE_FILES : List String := [".py", ".xml"]

/-- `SKIP_FOLDERS` constant of `flatten_file_data.py`. -/
def SKIP_FOLDERS : List String := ["tests", "static", "__pycache__", "i18n"]

/-- A file in the snapshot: its name and the result of reading it. -/
structure FileEntry where
  name : String
  content : Except String String
deriving DecidableEq

/-- A directory in the snapshot: its name, its files, and its
subdirectories, each in the (deterministic) order the OS enumerates them. -/
inductive Dir where
  | mk (name : String) (files : List FileEntry) (subdirs : List Dir)

def Dir.name : Dir → String
  | .mk n _ _ => n

def Dir.files : Dir → List FileEntry
  | .mk _ fs _ => fs

def Dir.subdirs : Dir → List Dir
  | .mk _ _ ds => ds

/-- Structural induction for `Dir` with the inductive hypothesis available
for every subdirectory. -/
theorem Dir.induct (motive : Dir → Prop)
    (h : ∀ n files subdirs, (∀ d ∈ subdirs, motive d) → motive (.mk n files subdirs)) :
    ∀ d, motive d := by
  have key : ∀ k d, sizeOf d ≤ k → motive d := by
    intro k
    induction k with
    | zero =>
      intro d hd
      cases d with
      | mk n files subdirs => simp at hd
    | succ k ih =>
      intro d hd
      cases d with
      | mk n files subdirs =>
        apply h
        intro d' hd'
        apply ih
        have hlt := List.sizeOf_lt_of_mem hd'
        simp at hd
        omega
  intro d
  exact key (sizeOf d) d le_rfl

mutual
/-- Every file in the tree, as (directory segments below the tree's root,
filename, read result), in traversal order (files of a directory first,
then its subdirectories in order). -/
def allFiles : Dir → List (List String × String × Except String String)
  | .mk _ files subdirs =>
      files.map (fun f => ([], f.name, f.content)) ++ allFilesList subdirs
def allFilesList : List Dir → List (List String × String × Except String String)
  | [] => []
  | d :: ds => (allFiles d).map (fun e => (d.name :: e.1, e.2)) ++ allFilesList ds
end

mutual
/-- Replace every file's read result in the snapshot (used to relate runs
of the same tree that differ only in which files are readable). -/
def Dir.mapContents (g : Except String String → Except String String) : Dir → Dir
  | .mk n files subdirs =>
      .mk n (files.map fun f => ⟨f.name, g f.content⟩) (Dir.mapContentsList g subdirs)
def Dir.mapContentsList (g : Except String String → Except String String) : List Dir → List Dir
  | [] => []
  | d :: ds => Dir.mapContents g d :: Dir.mapContentsList g ds
end

/-! ### CLI: `parse_folder` of `flatten_file_data.py` -/

/-- `filename.endswith(tuple_of_extensions)`: suffix match against any of
the configured extensions. -/
def matchesInclude (incl : List String) (filename : String) : Bool :=
  incl.any (fun ext => strEndsWith filename ext)

/-- The text `parse_folder` writes for one matched file: the relative-path
header line, then the file's content (or the error line on read failure),
then the blank-line separator. -/
def blockCLI (e : List String × String × Except String String) : String :=
  "[" ++ joinPath (e.1 ++ [e.2.1]) ++ "]\n" ++
    (match e.2.2 with
     | .ok c => c
     | .error msg => "Error reading file: " ++ msg ++ "\n") ++ "\n\n"

mutual
/-- The text the `os.walk` loop of `parse_folder` writes below one
directory: matched files of the directory first, then the non-pruned
subdirectories in order (`dirnames[:] = [d for d in dirnames if d not in
SKIP_FOLDERS]` prunes before descending).  `pre` is the directory's path
relative to the walk root. -/
def walkCLI (cfg : Configuration) (pre : List String) : Dir → String
  | .mk _ files subdirs =>
      String.join (files.map fun f =>
        if matchesInclude cfg.include_files f.name
        then blockCLI (pre, f.name, f.content) else "") ++
      walkCLIList cfg pre subdirs
def walkCLIList (cfg : Configuration) (pre : List String) : List Dir → String
  | [] => ""
  | d :: ds =>
      (if d.name ∈ cfg.skip_folders then "" else walkCLI cfg (pre ++ [d.name]) d) ++
      walkCLIList cfg pre ds
end

mutual
/-- The matched files the `os.walk` loop reaches, in emission order, as
(relative directory segments, filename, read result). -/
def cliEntries (cfg : Configuration) (pre : List String) :
    Dir → List (List String × String × Except String String)
  | .mk _ files subdirs =>
      files.filterMap (fun f =>
        if matchesInclude cfg.include_files f.name
        then some (pre, f.name, f.content) else none) ++
      cliEntriesList cfg pre subdirs
def cliEntriesList (cfg : Configuration) (pre : List String) :
    List Dir → List (List String × String × Except String String)
  | [] => []
  | d :: ds =>
      (if d.name ∈ cfg.skip_folders then [] else cliEntries cfg (pre ++ [d.name]) d) ++
      cliEntriesList cfg pre ds
end

mutual
/-- The directories whose contents the `os.walk` loop enumerates, as paths
relative to the walk root: the current directory, then the non-pruned
subtrees. -/
def cliVisited (cfg : Configuration) (pre : List String) : Dir → List (List String)
  | .mk _ _ subdirs => pre :: cliVisitedList cfg pre subdirs
def cliVisitedList (cfg : Configuration) (pre : List String) : List Dir → List (List String)
  | [] => []
  | d :: ds =>
      (if d.name ∈ cfg.skip_folders then [] else cliVisited cfg (pre ++ [d.name]) d) ++
      cliVisitedList cfg pre ds
end

/-- The text one `parse_folder` call appends to the output file: the
absolute root header, then the walk's output.  (`parse_folder` itself is
called with the module constants; the traversal is parameterised by the
configuration so the same model covers both adapters.) -/
def parse_folder (cfg : Configuration) (rootParts : List String) (d : Dir) : String :=
  "Root folder: " ++ joinPath rootParts ++ "\n\n" ++ walkCLI cfg [] d

/-- State of the output file after `parse_folder`: the file is opened in
append mode (`open(output_file, 'a')`), so the previous content stays and
the generated text follows it. -/
def parse_folder_run (cfg : Configuration) (rootParts : List String) (d : Dir)
    (prev : String) : String :=
  prev ++ parse_folder cfg rootParts d

/-- The error kinds the spec names for call rejection. -/
inductive FlattenError where
  | invalidDirectory (msg : String)
  | configurationError (msg : String)
deriving DecidableEq

/-- `main` of `flatten_file_data.py` on an already-parsed root argument:
checks `os.path.isdir` first (exiting without touching the output file),
then truncates the output file (`open(output_file, 'w')`) and lets
`parse_folder` append to the now-empty file.  Returns the rejection (if
any) and the output file's content after the call, given its content
`prevOutput` before the call. -/
def mainCLI (rootParts : List String) (fs : Option Dir) (prevOutput : String) :
    Option FlattenError × String :=
  match fs with
  | none =>
      (some (.invalidDirectory ("Error: " ++ joinPath rootParts ++ " is not a valid directory")),
       prevOutput)
  | some d =>
      (none, parse_folder_run ⟨INCLUDE_FILES, SKIP_FOLDERS⟩ rootParts d "")

/-! ### GUI: `DirectoryScanner` of `flatten_gui.py` -/

/-- One entry yielded by `root_dir.rglob('*')`: a file (with its read
result) or a directory, identified by its full path as built from the
given root. -/
inductive FSEntry where
  | fileE (parts : List String) (content : Except String String)
  | dirE (parts : List String)
deriving DecidableEq

mutual
/-- The entries `root_dir.rglob('*')` yields below a directory, in
CPython's order: all entries of the directory first, then the entries of
each subdirectory recursively.  `base` is the directory's full path.  The
enumeration is unconditional: it takes no configuration and descends into
every subdirectory. -/
def rglobEntries (base : List String) : Dir → List FSEntry
  | .mk _ files subdirs =>
      files.map (fun f => FSEntry.fileE (base ++ [f.name]) f.content) ++
      subdirs.map (fun s => FSEntry.dirE (base ++ [s.name])) ++
      rglobEntriesList base subdirs
def rglobEntriesList (base : List String) : List Dir → List FSEntry
  | [] => []
  | d :: ds => rglobEntries (base ++ [d.name]) d ++ rglobEntriesList base ds
end

/-- The filter `_iterate_files` applies to a yielded file path:
`any(str(path).endswith(ext) for ext in include_files)` and
`not any(skip in path.parts for skip in skip_folders)`. -/
def guiCond (cfg : Configuration) (parts : List String) : Bool :=
  (cfg.include_files.any fun ext => strEndsWith (joinPath parts) ext) &&
  !(cfg.skip_folders.any fun s => parts.contains s)

/-- The body of the `_iterate_files` loop for one `rglob` entry:
directories fail `path.is_file()`, files are yielded when they pass
`guiCond`. -/
def guiSel (cfg : Configuration) : FSEntry → Option (List String × Except String String)
  | .fileE parts c => if guiCond cfg parts then some (parts, c) else none
  | .dirE _ => none

/-- `DirectoryScanner._iterate_files`: the files yielded by `rglob`, kept
when they pass `guiCond`, with their full paths. -/
def iterate_files (cfg : Configuration) (rootParts : List String) (d : Dir) :
    List (List String × Except String String) :=
  (rglobEntries rootParts d).filterMap (guiSel cfg)

/-- The three list elements `scan_directory` appends for one yielded file:
the relative-path header, the content (or the error line on read failure),
and the separator element. -/
def guiBlock (rootParts : List String) (e : List String × Except String String) :
    List String :=
  ["[" ++ joinPath (e.1.drop rootParts.length) ++ "]",
   (match e.2 with
    | .ok c => c
    | .error msg => "Error reading file: " ++ msg),
   "\n"]

/-- `DirectoryScanner.scan_directory`: raises `ValueError` when the root is
not a directory, else builds the content list (root header first, then the
per-file blocks) and joins it with newlines. -/
def scan_directory (cfg : Configuration) (rootParts : List String) (fs : Option Dir) :
    Except FlattenError String :=
  match fs with
  | none =>
      .error (.invalidDirectory ("Invalid directory: " ++ joinPath rootParts))
  | some d =>
      .ok (String.intercalate "\n"
        (("Root folder: " ++ joinPath rootParts ++ "\n") ::
         (iterate_files cfg rootParts d).flatMap (guiBlock rootParts)))

/-- `MainWindow.generate_content`: checks the directory first (raising
`ValueError("Invalid directory")`), then rejects an empty include set with
`ConfigurationError`, then delegates to `scan_directory`. -/
def generate_content (cfg : Configuration) (rootParts : List String) (fs : Option Dir) :
    Except FlattenError String :=
  match fs with
  | none => .error (.invalidDirectory "Invalid directory")
  | some d =>
      if cfg.include_files.isEmpty then
        .error (.configurationError "No file extensions configured")
      else
        scan_directory cfg rootParts (some d)

/-! ### Filesystem operation trace of the GUI scanner -/

/-- The filesystem operations a scan can perform.  Write operations are in
the type so that their absence from a trace is a statement about the code,
not about the vocabulary. -/
inductive FSOp where
  | isDirQ (parts : List String)
  | listDirQ (parts : List String)
  | readFileQ (parts : List String)
  | writeFileQ (parts : List String) (data : String)
deriving DecidableEq

def FSOp.isWrite : FSOp → Bool
  | .writeFileQ _ _ => true
  | _ => false

mutual
/-- The directory listings `rglob` performs: it lists the root and every
subdirectory at any depth, with no pruning. -/
def rglobListOps (base : List String) : Dir → List FSOp
  | .mk _ _ subdirs => FSOp.listDirQ base :: rglobListOpsList base subdirs
def rglobListOpsList (base : List String) : List Dir → List FSOp
  | [] => []
  | d :: ds => rglobListOps (base ++ [d.name]) d ++ rglobListOpsList base ds
end

/-- The filesystem operations one `scan_directory` call performs: the
`is_dir` check, then (when the root exists) the `rglob` listings and a
read of every matched file. -/
def guiTrace (cfg : Configuration) (rootParts : List String) (fs : Option Dir) :
    List FSOp :=
  FSOp.isDirQ rootParts ::
  (match fs with
   | none => []
   | some d =>
       rglobListOps rootParts d ++
       (iterate_files cfg rootParts d).map (fun e => FSOp.readFileQ e.1))

/-! ### Header sets, as emitted and as the spec describes them -/

/-- The relative-path headers `parse_folder` emits, in order. -/
def headersCLI (cfg : Configuration) (d : Dir) : List String :=
  (cliEntries cfg [] d).map (fun e => joinPath (e.1 ++ [e.2.1]))

/-- The relative-path headers `scan_directory` emits, in order. -/
def headersGUI (cfg : Configuration) (rootParts : List String) (d : Dir) : List String :=
  (iterate_files cfg rootParts d).map (fun e => joinPath (e.1.drop rootParts.length))

/-- The claim's selection predicate, as stated: the file's name has an
extension of `include_files` as suffix and no segment of its root-relative
path is in `skip_folders`. -/
def specKeepC1 (cfg : Configuration) (e : List String × String × Except String String) : Bool :=
  matchesInclude cfg.include_files e.2.1 &&
  (e.1 ++ [e.2.1]).all (fun seg => !(cfg.skip_folders.contains seg))

/-- The header set the claim describes: root-relative paths of the files
selected by `specKeepC1`. -/
def specHeadersC1 (cfg : Configuration) (d : Dir) : List String :=
  ((allFiles d).filter (specKeepC1 cfg)).map (fun e => joinPath (e.1 ++ [e.2.1]))

/-- Selection predicate realised by the CLI walk: the filename has a
configured suffix and no directory segment strictly below the root is a
skip name (the filename itself is not checked against `skip_folders`). -/
def cliKeep (cfg : Configuration) (e : List String × String × Except String String) : Bool :=
  matchesInclude cfg.include_files e.2.1 &&
  e.1.all (fun seg => !(cfg.skip_folders.contains seg))

/-- Header set realised by the CLI walk, stated declaratively. -/
def specHeadersCLI (cfg : Configuration) (d : Dir) : List String :=
  ((allFiles d).filter (cliKeep cfg)).map (fun e => joinPath (e.1 ++ [e.2.1]))

/-- Selection predicate realised by the GUI scanner: the full path (root
components included) has a configured suffix and no component of the full
path — the root's own components and the filename included — is a skip
name. -/
def guiKeep (cfg : Configuration) (rootParts : List String)
    (e : List String × String × Except String String) : Bool :=
  guiCond cfg (rootParts ++ e.1 ++ [e.2.1])

/-- Header set realised by the GUI scanner, stated declaratively. -/
def specHeadersGUI (cfg : Configuration) (rootParts : List String) (d : Dir) : List String :=
  ((allFiles d).filter (guiKeep cfg rootParts)).map (fun e => joinPath (e.1 ++ [e.2.1]))

/-! ### General helper lemmas -/

theorem filterMap_if_eq {α β : Type} (p : α → Bool) (g : α → β) (l : List α) :
    (l.filterMap fun a => if p a then some (g a) else none) = (l.filter p).map g := by
  induction l with
  | nil => rfl
  | cons a l ih => by_cases h : p a <;> simp [h, ih]

theorem foldl_strAppend (l : List String) (init : String) :
    l.foldl (fun r s => r ++ s) init = init ++ l.foldl (fun r s => r ++ s) "" := by
  induction l generalizing init with
  | nil => simp [String.append_empty]
  | cons a l ih =>
    simp only [List.foldl_cons]
    rw [ih (init ++ a), ih ("" ++ a), String.empty_append, String.append_assoc]

theorem strJoin_append (a b : List String) :
    String.join (a ++ b) = String.join a ++ String.join b := by
  simp only [String.join, List.foldl_append]
  exact foldl_strAppend b _

theorem strJoin_cons (a : String) (l : List String) :
    String.join (a :: l) = a ++ String.join l := by
  simpa [String.join, String.empty_append] using foldl_strAppend l a

theorem strIntercalate_single (sep x : String) : String.intercalate sep [x] = x := by
  simp [String.intercalate, String.intercalate.go]

/-! ### Correspondence lemmas: the two traversals versus the declarative
file listing -/

/-- List step of `walkCLI_eq_join`. -/
theorem walkCLIList_eq_join (cfg : Configuration) (pre : List String) (l : List Dir)
    (ih : ∀ d ∈ l, ∀ pre', walkCLI cfg pre' d
        = String.join ((cliEntries cfg pre' d).map blockCLI)) :
    walkCLIList cfg pre l = String.join ((cliEntriesList cfg pre l).map blockCLI) := by
  induction l with
  | nil => rfl
  | cons s ss ihl =>
    have hs := ih s (List.mem_cons_self s ss)
    have hss := ihl (fun d hd => ih d (List.mem_cons_of_mem s hd))
    by_cases h : s.name ∈ cfg.skip_folders <;>
      simp [walkCLIList, cliEntriesList, h, strJoin_append, hs, hss, String.empty_append]

/-- The text the CLI walk writes is exactly the concatenation of the blocks
of the entries it reaches. -/
theorem walkCLI_eq_join (cfg : Configuration) (d : Dir) :
    ∀ pre, walkCLI cfg pre d = String.join ((cliEntries cfg pre d).map blockCLI) := by
  induction d using Dir.induct with
  | _ n files subdirs ih =>
    intro pre
    have hfiles : String.join (files.map fun f =>
        if matchesInclude cfg.include_files f.name
        then blockCLI (pre, f.name, f.content) else "")
        = String.join ((files.filterMap fun f =>
            if matchesInclude cfg.include_files f.name
            then some (pre, f.name, f.content) else none).map blockCLI) := by
      induction files with
      | nil => rfl
      | cons f fs ihf =>
        by_cases h : matchesInclude cfg.include_files f.name <;>
          simp [h, strJoin_cons, ihf, String.empty_append]
    have hsubs := walkCLIList_eq_join cfg pre subdirs (fun d hd => ih d hd)
    simp [walkCLI, cliEntries, hfiles, hsubs, strJoin_append]

/-- List step of `cliEntries_eq_filter`. -/
theorem cliEntriesList_eq_filter (cfg : Configuration) (pre : List String) (l : List Dir)
    (ih : ∀ d ∈ l, ∀ pre', cliEntries cfg pre' d
        = ((allFiles d).filter (cliKeep cfg)).map (fun e => (pre' ++ e.1, e.2))) :
    cliEntriesList cfg pre l
      = ((allFilesList l).filter (cliKeep cfg)).map (fun e => (pre ++ e.1, e.2)) := by
  induction l with
  | nil => rfl
  | cons s ss ihl =>
    have hs := ih s (List.mem_cons_self s ss) (pre ++ [s.name])
    have hss := ihl (fun d hd => ih d (List.mem_cons_of_mem s hd))
    have hhead : (if s.name ∈ cfg.skip_folders then []
          else cliEntries cfg (pre ++ [s.name]) s)
        = (((allFiles s).map (fun e => (s.name :: e.1, e.2))).filter
            (cliKeep cfg)).map (fun e => (pre ++ e.1, e.2)) := by
      rw [List.filter_map]
      by_cases h : s.name ∈ cfg.skip_folders
      · have hnil : (allFiles s).filter
            (cliKeep cfg ∘ fun e => (s.name :: e.1, e.2)) = [] := by
          apply List.filter_eq_nil_iff.mpr
          intro e _
          simp [cliKeep, Function.comp, h]
        simp [h, hnil]
      · have hpred : ∀ e ∈ allFiles s,
            (cliKeep cfg ∘ fun e => (s.name :: e.1, e.2)) e = cliKeep cfg e := by
          intro e _
          simp [cliKeep, Function.comp, h]
        rw [if_neg h, List.filter_congr hpred, hs, List.map_map]
        simp [Function.comp, ← List.append_cons]
    simp only [cliEntriesList, allFilesList, List.filter_append, List.map_append]
    rw [hhead, hss]

/-- The entries the CLI walk reaches are exactly the files of the tree whose
filename matches a configured suffix and whose relative directory path has
no skip-named segment, shifted below the walk root `pre`. -/
theorem cliEntries_eq_filter (cfg : Configuration) (d : Dir) :
    ∀ pre, cliEntries cfg pre d
      = ((allFiles d).filter (cliKeep cfg)).map (fun e => (pre ++ e.1, e.2)) := by
  induction d using Dir.induct with
  | _ n files subdirs ih =>
    intro pre
    have hsubs := cliEntriesList_eq_filter cfg pre subdirs ih
    have hfiles : (files.filterMap fun f =>
        if matchesInclude cfg.include_files f.name
        then some (pre, f.name, f.content) else none)
        = ((files.map fun f => (([] : List String), f.name, f.content)).filter
            (cliKeep cfg)).map (fun e => (pre ++ e.1, e.2)) := by
      induction files with
      | nil => rfl
      | cons f fs ihf =>
        by_cases hf : matchesInclude cfg.include_files f.name <;>
          simp [hf, cliKeep, ihf]
    simp only [cliEntries, allFiles, List.filter_append, List.map_append]
    rw [hfiles, hsubs]

/-- List step of `iterate_files_eq_filter`. -/
theorem rglobFilesList_eq (cfg : Configuration) (base : List String) (l : List Dir)
    (ih : ∀ d ∈ l, ∀ base', (rglobEntries base' d).filterMap (guiSel cfg)
        = ((allFiles d).filter (guiKeep cfg base')).map
            (fun e => (base' ++ e.1 ++ [e.2.1], e.2.2))) :
    (rglobEntriesList base l).filterMap (guiSel cfg)
      = ((allFilesList l).filter (guiKeep cfg base)).map
          (fun e => (base ++ e.1 ++ [e.2.1], e.2.2)) := by
  induction l with
  | nil => rfl
  | cons s ss ihl =>
    have hs := ih s (List.mem_cons_self s ss) (base ++ [s.name])
    have hss := ihl (fun d hd => ih d (List.mem_cons_of_mem s hd))
    have hpred : ∀ e ∈ allFiles s,
        (guiKeep cfg base ∘ fun e => (s.name :: e.1, e.2)) e
          = guiKeep cfg (base ++ [s.name]) e := by
      intro e _
      simp only [guiKeep, Function.comp]
      congr 1
      simp
    have hhead : (rglobEntries (base ++ [s.name]) s).filterMap (guiSel cfg)
        = (((allFiles s).map (fun e => (s.name :: e.1, e.2))).filter
            (guiKeep cfg base)).map (fun e => (base ++ e.1 ++ [e.2.1], e.2.2)) := by
      rw [List.filter_map, List.filter_congr hpred, hs, List.map_map]
      apply List.map_congr_left
      intro e _
      simp [Function.comp]
    simp only [rglobEntriesList, allFilesList, List.filterMap_append,
      List.filter_append, List.map_append]
    rw [hhead, hss]

/-- The files `_iterate_files` yields are exactly the files of the tree
passing the GUI filter applied to their full path, in traversal order. -/
theorem iterate_files_eq_filter (cfg : Configuration) (d : Dir) :
    ∀ rootParts, iterate_files cfg rootParts d
      = ((allFiles d).filter (guiKeep cfg rootParts)).map
          (fun e => (rootParts ++ e.1 ++ [e.2.1], e.2.2)) := by
  induction d using Dir.induct with
  | _ n files subdirs ih =>
    intro base
    have hdirs : ∀ (l : List Dir),
        (l.map fun s => FSEntry.dirE (base ++ [s.name])).filterMap (guiSel cfg) = [] := by
      intro l
      induction l with
      | nil => rfl
      | cons s ss ihs => simp [guiSel, ihs]
    have hfiles : (files.map fun f =>
          FSEntry.fileE (base ++ [f.name]) f.content).filterMap (guiSel cfg)
        = ((files.map fun f => (([] : List String), f.name, f.content)).filter
            (guiKeep cfg base)).map (fun e => (base ++ e.1 ++ [e.2.1], e.2.2)) := by
      induction files with
      | nil => rfl
      | cons f fs ihf =>
        by_cases hf : guiCond cfg (base ++ [f.name]) <;>
          simp [guiSel, guiKeep, hf, ihf]
    have hsubs := rglobFilesList_eq cfg base subdirs ih
    simp only [iterate_files, rglobEntries, allFiles, List.filterMap_append,
      List.filter_append, List.map_append]
    rw [hfiles, hdirs, hsubs]
    simp

theorem Dir.name_mapContents (g : Except String String → Except String String) (d : Dir) :
    (Dir.mapContents g d).name = d.name := by
  cases d
  rfl

/-- List step of `allFiles_mapContents`. -/
theorem allFilesList_mapContents (g : Except String String → Except String String)
    (l : List Dir)
    (ih : ∀ d ∈ l, allFiles (Dir.mapContents g d)
        = (allFiles d).map (fun e => (e.1, e.2.1, g e.2.2))) :
    allFilesList (Dir.mapContentsList g l)
      = (allFilesList l).map (fun e => (e.1, e.2.1, g e.2.2)) := by
  induction l with
  | nil => rfl
  | cons s ss ihl =>
    have hs := ih s (List.mem_cons_self s ss)
    have hss := ihl (fun d hd => ih d (List.mem_cons_of_mem s hd))
    simp only [Dir.mapContentsList, allFilesList, List.map_append, hs, hss,
      List.map_map, Dir.name_mapContents]
    congr 1

/-- Reading outcomes do not change which files the tree contains, nor their
names or positions. -/
theorem allFiles_mapContents (g : Except String String → Except String String) (d : Dir) :
    allFiles (Dir.mapContents g d) = (allFiles d).map (fun e => (e.1, e.2.1, g e.2.2)) := by
  induction d using Dir.induct with
  | _ n files subdirs ih =>
    have hsubs := allFilesList_mapContents g subdirs ih
    simp only [Dir.mapContents, allFiles, List.map_append, List.map_map, hsubs]
    congr 1

/-- The paths `_iterate_files` yields do not depend on whether the files
can be read. -/
theorem iterate_files_paths_mapContents (cfg : Configuration) (rootParts : List String)
    (g : Except String String → Except String String) (d : Dir) :
    (iterate_files cfg rootParts (Dir.mapContents g d)).map Prod.fst
      = (iterate_files cfg rootParts d).map Prod.fst := by
  have h1 : ∀ e ∈ allFiles d,
      (guiKeep cfg rootParts ∘ fun e => (e.1, e.2.1, g e.2.2)) e
        = guiKeep cfg rootParts e :=
    fun e _ => rfl
  rw [iterate_files_eq_filter, iterate_files_eq_filter, allFiles_mapContents,
    List.filter_map, List.filter_congr h1]
  simp only [List.map_map]
  exact List.map_congr_left (fun e _ => rfl)

/-- The relative paths and names of the files the CLI walk emits do not
depend on whether the files can be read. -/
theorem cliEntries_paths_mapContents (cfg : Configuration)
    (g : Except String String → Except String String) (d : Dir) :
    (cliEntries cfg [] (Dir.mapContents g d)).map (fun e => (e.1, e.2.1))
      = (cliEntries cfg [] d).map (fun e => (e.1, e.2.1)) := by
  have h1 : ∀ e ∈ allFiles d,
      (cliKeep cfg ∘ fun e => (e.1, e.2.1, g e.2.2)) e = cliKeep cfg e :=
    fun e _ => rfl
  rw [cliEntries_eq_filter, cliEntries_eq_filter, allFiles_mapContents,
    List.filter_map, List.filter_congr h1]
  simp only [List.map_map]
  exact List.map_congr_left (fun e _ => rfl)

/-- List step of `cliVisited_no_skip`. -/
theorem cliVisitedList_no_skip (cfg : Configuration) (pre : List String) (l : List Dir)
    (hpre : ∀ s ∈ cfg.skip_folders, s ∉ pre)
    (ih : ∀ d ∈ l, ∀ pre', (∀ s ∈ cfg.skip_folders, s ∉ pre') →
        ∀ p ∈ cliVisited cfg pre' d, ∀ s ∈ cfg.skip_folders, s ∉ p) :
    ∀ p ∈ cliVisitedList cfg pre l, ∀ s ∈ cfg.skip_folders, s ∉ p := by
  induction l with
  | nil =>
    intro p hp
    cases hp
  | cons t ts ihl =>
    intro p hp s hs
    simp only [cliVisitedList] at hp
    rcases List.mem_append.mp hp with h1 | h2
    · by_cases ht : t.name ∈ cfg.skip_folders
      · rw [if_pos ht] at h1
        cases h1
      · rw [if_neg ht] at h1
        have hpre' : ∀ s' ∈ cfg.skip_folders, s' ∉ pre ++ [t.name] := by
          intro s' hs' hmem
          rcases List.mem_append.mp hmem with hm | hm
          · exact hpre s' hs' hm
          · simp at hm
            subst hm
            exact ht hs'
        exact ih t (List.mem_cons_self t ts) (pre ++ [t.name]) hpre' p h1 s hs
    · exact ihl (fun d hd => ih d (List.mem_cons_of_mem t hd)) p h2 s hs

/-- When the starting relative path has no skip-named segment, neither does
the relative path of any directory the CLI walk enumerates: pruning keeps
the walk out of skip-named subtrees entirely. -/
theorem cliVisited_no_skip (cfg : Configuration) (d : Dir) :
    ∀ pre, (∀ s ∈ cfg.skip_folders, s ∉ pre) →
      ∀ p ∈ cliVisited cfg pre d, ∀ s ∈ cfg.skip_folders, s ∉ p := by
  induction d using Dir.induct with
  | _ n files subdirs ih =>
    intro pre hpre p hp s hs
    simp only [cliVisited] at hp
    rcases List.mem_cons.mp hp with h | h
    · subst h
      exact hpre s hs
    · exact cliVisitedList_no_skip cfg pre subdirs hpre ih p h s hs

/-- No file `_iterate_files` yields has a skip-named component in its path:
the post-filter removes them all. -/
theorem iterate_files_no_skip (cfg : Configuration) (rootParts : List String) (d : Dir) :
    ∀ e ∈ iterate_files cfg rootParts d, ∀ s ∈ cfg.skip_folders, s ∉ e.1 := by
  intro e he s hs hmem
  rcases List.mem_filterMap.mp he with ⟨a, _, hsel⟩
  cases a with
  | dirE parts => simp [guiSel] at hsel
  | fileE parts c =>
    simp only [guiSel] at hsel
    by_cases hc : guiCond cfg parts
    · rw [if_pos hc] at hsel
      cases hsel
      simp [guiCond] at hc
      exact hc.2 s hs hmem
    · rw [if_neg hc] at hsel
      cases hsel

/-- List step of `rglobListOps_no_write`. -/
theorem rglobListOpsList_no_write (base : List String) (l : List Dir)
    (ih : ∀ d ∈ l, ∀ base', ∀ op ∈ rglobListOps base' d, op.isWrite = false) :
    ∀ op ∈ rglobListOpsList base l, op.isWrite = false := by
  induction l with
  | nil =>
    intro op hop
    cases hop
  | cons s ss ihl =>
    intro op hop
    simp only [rglobListOpsList] at hop
    rcases List.mem_append.mp hop with h | h
    · exact ih s (List.mem_cons_self s ss) (base ++ [s.name]) op h
    · exact ihl (fun d hd => ih d (List.mem_cons_of_mem s hd)) op h

/-- Every operation of the `rglob` listing phase is a directory read. -/
theorem rglobListOps_no_write (d : Dir) :
    ∀ base, ∀ op ∈ rglobListOps base d, op.isWrite = false := by
  induction d using Dir.induct with
  | _ n files subdirs ih =>
    intro base op hop
    simp only [rglobListOps] at hop
    rcases List.mem_cons.mp hop with h | h
    · subst h
      rfl
    · exact rglobListOpsList_no_write base subdirs ih op h

/-! ### Claims -/

/-- Claim C1, counterexample.  As stated, the set of file headers does not
always equal the set of root-relative paths whose extension matches and
none of whose (root-relative) path segments is a skip name: with
`skip_folders = ["tests"]` and root path `home/tests/proj`, the GUI
scanner checks the root's own path components, so `a.py` is in the claimed
set but not among the emitted headers. -/
theorem C1_counterexample :
    ¬ (("a.py" ∈ headersGUI ⟨[".py"], ["tests"]⟩ ["home", "tests", "proj"]
          (.mk "proj" [⟨"a.py", .ok "x=1"⟩] []))
        ↔ ("a.py" ∈ specHeadersC1 ⟨[".py"], ["tests"]⟩
          (.mk "proj" [⟨"a.py", .ok "x=1"⟩] []))) := by
  decide

/-- Claim C1, amended.  The CLI walk's headers are exactly the
root-relative paths of files whose name has a configured suffix and none
of whose directory segments strictly below the root is a skip name; the
GUI scanner's headers are exactly the root-relative paths of files whose
full path (root components included) has a configured suffix and none of
whose full-path components — the root's own components and the filename
included — is a skip name. -/
theorem C1_header_sets (cfg : Configuration) (rootParts : List String) (d : Dir) :
    headersCLI cfg d = specHeadersCLI cfg d ∧
    headersGUI cfg rootParts d = specHeadersGUI cfg rootParts d := by
  constructor
  · rw [headersCLI, specHeadersCLI, cliEntries_eq_filter, List.map_map]
    exact List.map_congr_left (fun e _ => by simp)
  · rw [headersGUI, specHeadersGUI, iterate_files_eq_filter, List.map_map]
    apply List.map_congr_left
    intro e _
    simp only [Function.comp]
    rw [List.append_assoc, List.drop_left]

/-- Claim C2, counterexample.  The GUI traversal does enumerate the
contents of a directory whose name is in `skip_folders`: with
`skip_folders = ["tests"]`, the scan's operation trace lists the directory
`proj/tests` and `rglob` yields the file under it; the file is excluded
only afterwards, by the post-filter (it is absent from the headers). -/
theorem C2_counterexample :
    FSOp.listDirQ ["proj", "tests"] ∈ guiTrace ⟨[".py"], ["tests"]⟩ ["proj"]
        (some (.mk "proj" [⟨"a.py", .ok "x=1"⟩]
          [.mk "tests" [⟨"b.py", .ok "skip me"⟩] []])) ∧
    FSEntry.fileE ["proj", "tests", "b.py"] (.ok "skip me")
        ∈ rglobEntries ["proj"] (.mk "proj" [⟨"a.py", .ok "x=1"⟩]
          [.mk "tests" [⟨"b.py", .ok "skip me"⟩] []]) ∧
    "tests/b.py" ∉ headersGUI ⟨[".py"], ["tests"]⟩ ["proj"]
        (.mk "proj" [⟨"a.py", .ok "x=1"⟩]
          [.mk "tests" [⟨"b.py", .ok "skip me"⟩] []]) := by
  decide

/-- Claim C2, amended.  The CLI walk prunes before descent: no directory
it enumerates lies at or below a skip-named directory.  The GUI scanner
does not prune — its `rglob` enumerates every descendant and exclusion is
by post-filtering — but the post-filter is complete: no file it yields has
a skip-named path component. -/
theorem C2_pruning (cfg : Configuration) (rootParts : List String) (d : Dir) :
    (∀ p ∈ cliVisited cfg [] d, ∀ s ∈ cfg.skip_folders, s ∉ p) ∧
    (∀ e ∈ iterate_files cfg rootParts d, ∀ s ∈ cfg.skip_folders, s ∉ e.1) :=
  ⟨cliVisited_no_skip cfg d [] (by simp), iterate_files_no_skip cfg rootParts d⟩

/-- Claim C2, witness for the amended theorem, at a tree with one
non-skipped subdirectory and a matched root file. -/
theorem C2_pruning_witness :
    ("tests" ∉ (["sub"] : List String)) ∧
    ("tests" ∉ (["proj", "a.py"] : List String)) := by
  constructor
  · exact (C2_pruning ⟨[".py"], ["tests"]⟩ ["proj"]
      (.mk "proj" [] [.mk "sub" [] []])).1 ["sub"] (by decide) "tests" (by decide)
  · exact (C2_pruning ⟨[".py"], ["tests"]⟩ ["proj"]
      (.mk "proj" [⟨"a.py", .ok "x"⟩] [])).2
      (["proj", "a.py"], Except.ok "x") (by decide) "tests" (by decide)

/-- Claim C3.  A file whose read fails is rendered as its relative-path
header followed by the single literal line `Error reading file: <message>`
in place of content, and the failure does not abort the traversal: the
sequence of files either variant processes (paths and names) is unchanged
under any change of the files' read outcomes. -/
theorem C3_read_error_resilience (cfg : Configuration) (rootParts : List String) (d : Dir)
    (g : Except String String → Except String String)
    (parts p : List String) (n msg : String) :
    ((iterate_files cfg rootParts (Dir.mapContents g d)).map Prod.fst
        = (iterate_files cfg rootParts d).map Prod.fst) ∧
    ((cliEntries cfg [] (Dir.mapContents g d)).map (fun e => (e.1, e.2.1))
        = (cliEntries cfg [] d).map (fun e => (e.1, e.2.1))) ∧
    guiBlock rootParts (parts, .error msg)
      = ["[" ++ joinPath (parts.drop rootParts.length) ++ "]",
         "Error reading file: " ++ msg, "\n"] ∧
    blockCLI (p, n, .error msg)
      = "[" ++ joinPath (p ++ [n]) ++ "]\n"
          ++ ("Error reading file: " ++ msg ++ "\n") ++ "\n\n" :=
  ⟨iterate_files_paths_mapContents cfg rootParts g d,
   cliEntries_paths_mapContents cfg g d, rfl, rfl⟩

/-- Claim C4, counterexample.  A call with an empty include set is not
always rejected with `ConfigurationError`: when the root directory is also
invalid, the directory check runs first and the call is rejected with the
invalid-directory error instead. -/
theorem C4_counterexample :
    generate_content ⟨[], ["tests"]⟩ ["proj"] none
        = Except.error (FlattenError.invalidDirectory "Invalid directory") ∧
    generate_content ⟨[], ["tests"]⟩ ["proj"] none
        ≠ Except.error (FlattenError.configurationError
            "No file extensions configured") := by
  constructor
  · rfl
  · decide

/-- Claim C4, amended.  Every call on an existing root directory with an
empty `include_files` set is rejected with `ConfigurationError` before any
output is produced (with an invalid root, the invalid-directory rejection
takes precedence). -/
theorem C4_empty_config_rejected (cfg : Configuration) (rootParts : List String) (d : Dir)
    (h : cfg.include_files = []) :
    generate_content cfg rootParts (some d)
      = Except.error (FlattenError.configurationError
          "No file extensions configured") := by
  simp [generate_content, h]

/-- Claim C4, witness for the amended theorem. -/
theorem C4_empty_config_witness :
    generate_content ⟨[], ["tests"]⟩ ["proj"] (some (.mk "proj" [] []))
      = Except.error (FlattenError.configurationError
          "No file extensions configured") :=
  C4_empty_config_rejected ⟨[], ["tests"]⟩ ["proj"] (.mk "proj" [] []) rfl

/-- Claim C5.  A call whose root does not reference an existing directory
fails with the invalid-directory rejection before any output is produced:
the GUI path rejects in `generate_content` (and `scan_directory`'s own
guard gives the same kind), the scan's operation trace contains only the
existence check, and the CLI exits before creating or touching the output
file (its content stays `prev`). -/
theorem C5_invalid_root (cfg : Configuration) (rootParts : List String) (prev : String) :
    generate_content cfg rootParts none
        = Except.error (FlattenError.invalidDirectory "Invalid directory") ∧
    scan_directory cfg rootParts none
        = Except.error (FlattenError.invalidDirectory
            ("Invalid directory: " ++ joinPath rootParts)) ∧
    guiTrace cfg rootParts none = [FSOp.isDirQ rootParts] ∧
    mainCLI rootParts none prev
        = (some (FlattenError.invalidDirectory
            ("Error: " ++ joinPath rootParts ++ " is not a valid directory")), prev) :=
  ⟨rfl, rfl, rfl, rfl⟩

/-- Claim C6.  On an unchanged directory tree (the same snapshot, with the
same enumeration order) and the same configuration, both variants produce
byte-identical output: the traversal is a deterministic function of the
snapshot. -/
theorem C6_deterministic (cfg : Configuration) (rootParts : List String) (d1 d2 : Dir)
    (h : d1 = d2) :
    scan_directory cfg rootParts (some d1) = scan_directory cfg rootParts (some d2) ∧
    parse_folder cfg rootParts d1 = parse_folder cfg rootParts d2 := by
  subst h
  exact ⟨rfl, rfl⟩

/-- Claim C6, witness. -/
theorem C6_deterministic_witness :
    scan_directory ⟨[".py"], ["tests"]⟩ ["proj"]
        (some (.mk "proj" [⟨"a.py", .ok "x=1"⟩] []))
      = scan_directory ⟨[".py"], ["tests"]⟩ ["proj"]
        (some (.mk "proj" [⟨"a.py", .ok "x=1"⟩] [])) ∧
    parse_folder ⟨[".py"], ["tests"]⟩ ["proj"] (.mk "proj" [⟨"a.py", .ok "x=1"⟩] [])
      = parse_folder ⟨[".py"], ["tests"]⟩ ["proj"]
        (.mk "proj" [⟨"a.py", .ok "x=1"⟩] []) :=
  C6_deterministic ⟨[".py"], ["tests"]⟩ ["proj"] _ _ rfl

/-- Claim C7.  A tree in which no file matches the configured extensions
(under the respective variant's matcher) still yields an output document
consisting of exactly the root-folder header. -/
theorem C7_empty_match (cfg : Configuration) (rootParts : List String) (d : Dir)
    (h1 : ∀ e ∈ allFiles d, matchesInclude cfg.include_files e.2.1 = false)
    (h2 : ∀ e ∈ allFiles d, (cfg.include_files.any fun ext =>
        strEndsWith (joinPath (rootParts ++ e.1 ++ [e.2.1])) ext) = false) :
    parse_folder cfg rootParts d = "Root folder: " ++ joinPath rootParts ++ "\n\n" ∧
    scan_directory cfg rootParts (some d)
      = .ok ("Root folder: " ++ joinPath rootParts ++ "\n") := by
  have hcli : cliEntries cfg [] d = [] := by
    rw [cliEntries_eq_filter]
    have hnil : (allFiles d).filter (cliKeep cfg) = [] :=
      List.filter_eq_nil_iff.mpr (fun e he => by simp [cliKeep, h1 e he])
    simp [hnil]
  have hgui : iterate_files cfg rootParts d = [] := by
    rw [iterate_files_eq_filter]
    have hnil : (allFiles d).filter (guiKeep cfg rootParts) = [] := by
      apply List.filter_eq_nil_iff.mpr
      intro e he hk
      simp only [guiKeep, guiCond] at hk
      rw [h2 e he] at hk
      simp at hk
    simp [hnil]
  constructor
  · rw [parse_folder, walkCLI_eq_join, hcli]
    simp [String.join, String.append_empty]
  · simp [scan_directory, hgui, strIntercalate_single]

/-- Claim C7, witness: a tree with one non-matching file. -/
theorem C7_empty_match_witness :
    parse_folder ⟨[".py"], ["tests"]⟩ ["proj"] (.mk "proj" [⟨"a.txt", .ok "hi"⟩] [])
        = "Root folder: " ++ joinPath ["proj"] ++ "\n\n" ∧
    scan_directory ⟨[".py"], ["tests"]⟩ ["proj"]
        (some (.mk "proj" [⟨"a.txt", .ok "hi"⟩] []))
        = .ok ("Root folder: " ++ joinPath ["proj"] ++ "\n") :=
  C7_empty_match ⟨[".py"], ["tests"]⟩ ["proj"] (.mk "proj" [⟨"a.txt", .ok "hi"⟩] [])
    (by decide) (by decide)

/-- Claim C8.  The GUI scan is read-only: every filesystem operation in
its trace — the existence check, the `rglob` directory listings and the
per-file reads — is a read; no write operation occurs, so the scanned tree
is left unmodified and the only effect is the returned document.  (The
configuration is passed by value and never written back; the scan merely
reads it.) -/
theorem C8_read_only (cfg : Configuration) (rootParts : List String) (fs : Option Dir) :
    ((guiTrace cfg rootParts fs).all fun op => !op.isWrite) = true := by
  rw [List.all_eq_true]
  intro op hop
  simp only [guiTrace] at hop
  rcases List.mem_cons.mp hop with h | h
  · subst h
    rfl
  · cases fs with
    | none => cases h
    | some d =>
      rcases List.mem_append.mp h with h1 | h1
      · have hw := rglobListOps_no_write d rootParts op h1
        simp [hw]
      · rcases List.mem_map.mp h1 with ⟨e, _, hop'⟩
        subst hop'
        rfl

/-- Claim C9.  The GUI skip check runs on every component of the full path
built from the given root, the root's own components included: when the
root's path contains a skip-named component, `scan_directory` returns a
document with the root header and no file entries at all. -/
theorem C9_root_path_skip (cfg : Configuration) (rootParts : List String) (d : Dir)
    (s : String) (hs : s ∈ cfg.skip_folders) (hr : s ∈ rootParts) :
    scan_directory cfg rootParts (some d)
      = .ok ("Root folder: " ++ joinPath rootParts ++ "\n") := by
  have hnil : iterate_files cfg rootParts d = [] := by
    rw [iterate_files_eq_filter]
    have hfil : (allFiles d).filter (guiKeep cfg rootParts) = [] := by
      apply List.filter_eq_nil_iff.mpr
      intro e _ hk
      have hcont : (rootParts ++ e.1 ++ [e.2.1]).contains s = true :=
        List.elem_iff.mpr (List.mem_append_left _ (List.mem_append_left _ hr))
      have hB : (cfg.skip_folders.any fun x =>
          (rootParts ++ e.1 ++ [e.2.1]).contains x) = true :=
        List.any_eq_true.mpr ⟨s, hs, hcont⟩
      simp only [guiKeep, guiCond] at hk
      rw [hB] at hk
      simp at hk
    simp [hfil]
  simp [scan_directory, hnil, strIntercalate_single]

/-- Claim C9, witness: root path `home/tests/proj` with skip name
`tests`. -/
theorem C9_root_path_skip_witness :
    scan_directory ⟨[".py"], ["tests"]⟩ ["home", "tests", "proj"]
        (some (.mk "proj" [⟨"a.py", .ok "x=1"⟩] []))
      = .ok ("Root folder: " ++ joinPath ["home", "tests", "proj"] ++ "\n") :=
  C9_root_path_skip ⟨[".py"], ["tests"]⟩ ["home", "tests", "proj"]
    (.mk "proj" [⟨"a.py", .ok "x=1"⟩] []) "tests" (by decide) (by decide)

/-- Claim C10.  `parse_folder` opens the output file in append mode and
only appends: whatever the file contained before the call is preserved
unchanged as a prefix, with the generated document following it.  The
truncation is performed separately by `main`, which opens the file with
mode `'w'` before calling `parse_folder`, so after `main` the file holds
exactly the freshly generated document, independent of `prev`. -/
theorem C10_append_only (cfg : Configuration) (rootParts : List String) (d : Dir)
    (prev : String) :
    parse_folder_run cfg rootParts d prev = prev ++ parse_folder cfg rootParts d ∧
    (mainCLI rootParts (some d) prev).2
        = parse_folder ⟨INCLUDE_FILES, SKIP_FOLDERS⟩ rootParts d := by
  refine ⟨rfl, ?_⟩
  simp [mainCLI, parse_folder_run, String.empty_append]

end Flatten

